import Mathlib

/-!
Verification of the mfsu dependency-change detection and incremental rebuild
subsystem (packages/preset-built-in/src/plugins/features/mfsu/mfsu.ts).

Pure shallow embedding: file-system paths are strings (or segment lists for
the resolver), the Node `path.join` and JS string/regex operations are
modelled by executable Lean functions, exceptions are `Except`, and the
asynchronous build completion callback is modelled by passing the reported
`(err, stats.hasErrors())` pair into the pure `buildDeps` function.
-/

namespace Mfsu

/-! ## String utilities (JS / Node behaviour) -/

/-- Does the character list `s` start with the pattern `pat`? -/
def listStarts : List Char → List Char → Bool
  | [], _ => true
  | _ :: _, [] => false
  | p :: ps, c :: cs => p == c && listStarts ps cs

/-- JS `s.startsWith(pat)` / regex `^pat` match on strings. -/
def strStarts (s pat : String) : Bool := listStarts pat.data s.data

/-- Does the character list `s` contain `pat` as a contiguous sublist? -/
def hasSubList (pat : List Char) : List Char → Bool
  | [] => pat.isEmpty
  | c :: cs => listStarts pat (c :: cs) || hasSubList pat cs

/-- JS regex test for a literal pattern: `new RegExp(pat).test(s)` where
`pat` has no metacharacters, i.e. substring containment. -/
def strContains (s pat : String) : Bool := hasSubList pat.data s.data

/-- Does `s` match the regex `remoteEntry.js` at its head? The dot of the
regex literal in the source is an unescaped wildcard, so it matches any
single character. -/
def remoteEntryAt (s : List Char) : Bool :=
  listStarts "remoteEntry".data s &&
    (match s.drop 11 with
     | [] => false
     | _ :: rest => listStarts "js".data rest)

def remoteEntryTestAux : List Char → Bool
  | [] => false
  | c :: cs => remoteEntryAt (c :: cs) || remoteEntryTestAux cs

/-- JS `/remoteEntry.js/.test(url)` from the request interceptor. -/
def remoteEntryTest (url : String) : Bool := remoteEntryTestAux url.data

/-- Split a character list at every occurrence of the separator. -/
def splitChars (sep : Char) : List Char → List (List Char)
  | [] => [[]]
  | c :: cs =>
    if c == sep then [] :: splitChars sep cs
    else
      match splitChars sep cs with
      | [] => [[c]]
      | g :: gs => (c :: g) :: gs

/-- JS `s.split(sep)` for a single-character separator (the behaviour of
`String.splitOn` that this embedding needs, as an executable function). -/
def strSplit (s : String) (sep : Char) : List String :=
  (splitChars sep s.data).map (fun l => ⟨l⟩)

/-- Node `path.join(a, b)` restricted to the behaviour this subsystem
relies on: an empty component disappears, otherwise components are joined
with a separator (normalisation of `.` and `..` segments is not needed by
any claim). -/
def join (a b : String) : String :=
  if a = "" then b else if b = "" then a else a ++ "/" ++ b

/-! ## JS values for the externals configuration check -/

/-- A JS runtime value, as far as `typeof` and truthiness are concerned;
used to embed the `typeof (memo.externals \x7c\x7c \x7b\x7d) === "object"`
assertion. -/
inductive JsValue
  | undef
  | nullv
  | boolv (b : Bool)
  | numv (n : Int)
  | strv (s : String)
  | objv
  | arrv
  | funv
deriving DecidableEq

def jsTypeof : JsValue → String
  | .undef => "undefined"
  | .nullv => "object"
  | .boolv _ => "boolean"
  | .numv _ => "number"
  | .strv _ => "string"
  | .objv => "object"
  | .arrv => "object"
  | .funv => "function"

def jsTruthy : JsValue → Bool
  | .undef => false
  | .nullv => false
  | .boolv b => b
  | .numv n => n != 0
  | .strv s => s != ""
  | .objv => true
  | .arrv => true
  | .funv => true

/-- JS string coercion of a value, for the interpolated error message. -/
def jsDisplay : JsValue → String
  | .undef => "undefined"
  | .nullv => "null"
  | .boolv b => if b then "true" else "false"
  | .numv n => toString n
  | .strv s => s
  | .objv => "[object Object]"
  | .arrv => ""
  | .funv => "function"

/-! ## Modes and api state -/

inductive TMode
  | production
  | development
deriving DecidableEq

/-- The slice of the umi `api` object the mfsu plugin reads: the project
cwd, the temp path, the user config fields `mfsu.development.output`,
`mfsu.production.output`, `outputPath`, and the truthiness of the `mfsu`
config key. -/
structure ApiConfig where
  cwd : String
  absTmpPath : String
  devOutput : Option String
  prodOutput : Option String
  outputPath : Option String
  mfsuEnabled : Bool
deriving DecidableEq

/-! ## checkConfig -/

/-- The `mfsu.development` / `mfsu.production` config objects. -/
structure MfsuModeCfg where
  output : Option String
deriving DecidableEq

structure MfsuCfg where
  development : Option MfsuModeCfg
  production : Option MfsuModeCfg
deriving DecidableEq

/-- One branch of `checkConfig`: if the output is configured and truthy
(a JS string is truthy iff non-empty), assert that it matches `/\.mfsu/`,
i.e. contains the substring `.mfsu`. -/
def checkOutput (label : String) (out : Option String) : Except String Unit :=
  match out with
  | none => .ok ()
  | some o =>
    if o = "" then .ok ()
    else if strContains o ".mfsu" then .ok ()
    else .error ("[MFSU] mfsu." ++ label ++ ".output must match /\\.mfsu/.")

/-- `checkConfig` from mfsu.ts: both per-mode output paths are checked;
a failing `assert` aborts the run with its message. -/
def checkConfig (mfsu : Option MfsuCfg) : Except String Unit :=
  match mfsu with
  | none => .ok ()
  | some c => do
    checkOutput "development" (c.development.bind MfsuModeCfg.output)
    checkOutput "production" (c.production.bind MfsuModeCfg.output)

/-! ## getMfsuPath -/

/-- `getMfsuPath` from mfsu.ts. A configured output path (truthy, i.e.
non-empty) is joined with the project cwd; otherwise development falls
back to `absTmpPath/.cache/.mfsu` and production to
`cwd/./.mfsu-production`. -/
def getMfsuPath (api : ApiConfig) (mode : TMode) : String :=
  match mode with
  | .development =>
    match api.devOutput with
    | some p =>
      if p = "" then join (join api.absTmpPath ".cache") ".mfsu"
      else join api.cwd p
    | none => join (join api.absTmpPath ".cache") ".mfsu"
  | .production =>
    match api.prodOutput with
    | some p =>
      if p = "" then join api.cwd "./.mfsu-production"
      else join api.cwd p
    | none => join api.cwd "./.mfsu-production"

/-! ## The artifact request interceptor (api.addBeforeMiddlewares) -/

structure Req where
  path : String
  url : String
deriving DecidableEq

/-- Outcome of the middleware: pass through to the next handler, or send
the file content with a content-type header and, optionally, the immutable
max-age cache-control header. -/
inductive MwResult
  | next
  | served (contentType : String) (immutable : Bool) (content : String)
deriving DecidableEq

/-- `path.replace(new RegExp("^" + publicPath), "/").slice(1)` from the
middleware body. -/
def stripPublic (publicPath p : String) : String :=
  (if strStarts p publicPath then "/" ++ p.drop publicPath.length else p).drop 1

/-- Node `path.parse(p).ext`: the extension (with dot) of the last path
segment, empty when there is no dot. -/
def extname (p : String) : String :=
  let base := (strSplit p '/').getLastD ""
  let parts := strSplit base '.'
  if parts.length ≤ 1 then "" else "." ++ parts.getLastD ""

/-- The request middleware registered by `api.addBeforeMiddlewares`.
The file system is modelled by the list `existing` of paths for which
`existsSync` is true and a `readFile` function; `mimeOf` models
`mime.lookup` on the extension. The middleware always resolves files
against `getMfsuPath api TMode.development`, whatever the current process
`mode` is. -/
def mfsuMiddleware (api : ApiConfig) (publicPath : String) (existing : List String)
    (readFile mimeOf : String → String) (mode : TMode) (req : Req) : MwResult :=
  let filePath := stripPublic publicPath req.path
  let mfsuPath := getMfsuPath api TMode.development
  if !api.mfsuEnabled || req.path == "/" || !(existing.contains (join mfsuPath filePath)) then
    .next
  else
    .served (mimeOf (extname req.path)) (!remoteEntryTest req.url)
      (readFile (join mfsuPath filePath))

/-! ## Dependency snapshot diffing and buildDeps -/

/-- A dependency snapshot: specifier to version. -/
abbrev Deps := List (String × String)

def lookupDep (m : Deps) (k : String) : Option String :=
  (m.find? (fun r => r.1 == k)).map Prod.snd

/-- Modelled from the spec: the comparison inside `DepInfo.loadTmpDeps`
(DepInfo.ts is not part of this source tree). Two snapshots match when
they have the same specifier key set and every shared specifier has the
same version, i.e. each entry of one is found with the same version in
the other. -/
def depsMatch (a b : Deps) : Bool :=
  a.all (fun r => lookupDep b r.1 == some r.2) &&
    b.all (fun r => lookupDep a r.1 == some r.2)

/-- Modelled from the spec: `shouldBuild` as returned by
`DepInfo.loadTmpDeps`; true iff the new resolution differs from the
persisted snapshot by any added or removed specifier or any changed
version. -/
def shouldBuild (oldDeps newDeps : Deps) : Bool := !(depsMatch oldDeps newDeps)

/-- `api.userConfig.outputPath \x7c\x7c "./dist"` (a JS string is falsy
iff empty). -/
def distOutput (outputPath : Option String) : String :=
  match outputPath with
  | some p => if p = "" then "./dist" else p
  | none => "./dist"

/-- Observable effects of one `buildDeps` call. -/
structure BuildDepsResult where
  buildInvoked : Bool
  cacheWritten : Bool
  snapshotAfter : Deps
  serverReloaded : Bool
  copiedToDist : Option (String × String)
deriving DecidableEq

/-- `buildDeps` from mfsu.ts. `oldDeps` is the persisted snapshot,
`newDeps` the freshly resolved dependency set; `buildErr` and
`statsHasErrors` are the values delivered to the `onBuildComplete`
callback when a build is invoked. The callback writes the cache (and in
development refreshes the server) only when the build reports no error
and no error-bearing stats; afterwards, in production mode the tmp dir is
unconditionally copied to the dist directory. -/
def buildDeps (api : ApiConfig) (mode : TMode) (force : Bool) (oldDeps newDeps : Deps)
    (buildErr statsHasErrors : Bool) (tmpDir : String) : BuildDepsResult :=
  let sb := shouldBuild oldDeps newDeps
  let invoked := force || sb
  let success := invoked && !buildErr && !statsHasErrors
  { buildInvoked := invoked
    cacheWritten := success
    snapshotAfter := if success then newDeps else oldDeps
    serverReloaded := success && mode == TMode.development
    copiedToDist :=
      if mode == TMode.production then
        some (tmpDir, join api.cwd (distOutput api.outputPath))
      else none }

/-! ## The mfsu CLI command (api.registerCommand) -/

/-- The `umi mfsu` command: the `build` subcommand runs `buildDeps` with
the force flag; any other subcommand throws. A build failure is reported
through the `onBuildComplete` callback (modelled from the spec: the
orchestrator `DepBuilder`, not in this source tree, reports failures via
the completion notification and does not throw past itself), so the
command itself resolves normally. -/
def mfsuCommand (api : ApiConfig) (mode : TMode) (sub : String) (force : Bool)
    (oldDeps newDeps : Deps) (buildErr statsHasErrors : Bool) (tmpDir : String) :
    Except String BuildDepsResult :=
  if sub == "build" then
    .ok (buildDeps api mode force oldDeps newDeps buildErr statsHasErrors tmpDir)
  else
    .error ("[MFSU] Unsupported subcommand " ++ sub ++ " for mfsu.")

/-! ## modifyBundleConfig -/

inductive BundlerConfigType
  | csr
  | ssr
deriving DecidableEq

/-- The externals assertion inside the `modifyBundleConfig` hook:
`assert(typeof (memo.externals \x7c\x7c \x7b\x7d) === "object", ...)`,
executed only for the csr bundler config. -/
def modifyBundleConfigCheck (type : BundlerConfigType) (externals : JsValue) :
    Except String Unit :=
  if type == BundlerConfigType.csr then
    let v := if jsTruthy externals then externals else JsValue.objv
    if jsTypeof v == "object" then .ok ()
    else
      .error ("[MFSU] Unsupported externals config format, only support object, but got "
        ++ jsDisplay externals)
  else .ok ()

/-! ## The version resolver (getDepVersion)

Modelled from the spec: `getDepVersion.ts` itself is not part of this
source tree (only its test file is), so the resolver is embedded from the
algorithm of spec section 4.1. Directories are segment lists from the
file-system root; the installed tree is a map from a directory to the
version declared by the `package.json` manifest in that directory. -/

abbrev FsPath := List String

/-- Modelled from the spec: the installed dependency tree, as the mapping
from a directory to the version string of the package manifest it holds. -/
structure FS where
  manifests : List (FsPath × String)

def FS.manifestAt (fs : FS) (d : FsPath) : Option String :=
  (fs.manifests.find? (fun r => r.1 == d)).map Prod.snd

/-- Walk upward over the reversed directory path looking for the nearest
manifest. -/
def findUpAux (fs : FS) : List String → Option String
  | [] => fs.manifestAt []
  | s :: rest =>
    match fs.manifestAt ((s :: rest).reverse) with
    | some v => some v
    | none => findUpAux fs rest

/-- Modelled from the spec: the nearest ancestor manifest of a path,
walking upward from the path itself to the file-system root. -/
def findUp (fs : FS) (d : FsPath) : Option String := findUpAux fs d.reverse

/-- Walk upward over the reversed base directory, probing each ancestor
directory for `node_modules/<package root>/package.json`. -/
def findPkgUpAux (fs : FS) (pkg : FsPath) : List String → Option (String × FsPath)
  | [] => (fs.manifestAt ("node_modules" :: pkg)).map (fun v => (v, "node_modules" :: pkg))
  | s :: rest =>
    match fs.manifestAt ((s :: rest).reverse ++ "node_modules" :: pkg) with
    | some v => some (v, (s :: rest).reverse ++ "node_modules" :: pkg)
    | none => findPkgUpAux fs pkg rest

/-- Modelled from the spec: install-tree lookup of a package root name,
probing the dependency-install directory of the base directory and of
every ancestor up to the file-system root. Returns the version and the
probed package directory. -/
def findPkgUp (fs : FS) (pkg : FsPath) (d : FsPath) : Option (String × FsPath) :=
  findPkgUpAux fs pkg d.reverse

/-- Segment list of a specifier or path (empty segments dropped). -/
def toPath (s : String) : FsPath := (strSplit s '/').filter (fun x => x ≠ "")

/-- Does the alias key `key` match the specifier `dep`: exactly, or as the
portion of `dep` before a `/`. -/
def aliasKeyHits (dep key : String) : Bool :=
  dep == key || strStarts dep (key ++ "/")

/-- Modelled from the spec: alias table lookup with longest matching key;
returns the mapped value and the remainder of the specifier sub-path. -/
def aliasMatch (table : List (String × String)) (dep : String) :
    Option (String × String) :=
  ((table.filter (fun kv => aliasKeyHits dep kv.1)).foldl
      (fun acc kv =>
        match acc with
        | none => some kv
        | some b => if kv.1.length > b.1.length then some kv else acc)
      none).map
    (fun kv => (kv.2, dep.drop kv.1.length))

/-- Modelled from the spec: split a specifier into the package root name
(a scoped `@scope/name` is one unit) and the remainder sub-path. -/
def splitPkg (dep : String) : String × String :=
  match strSplit dep '/' with
  | [] => (dep, "")
  | s :: rest =>
    if strStarts s "@" then
      match rest with
      | [] => (dep, "")
      | s2 :: rest2 =>
        (s ++ "/" ++ s2, rest2.foldl (fun a b => a ++ "/" ++ b) "")
    else (s, rest.foldl (fun a b => a ++ "/" ++ b) "")

/-- Modelled from the spec: `getDepVersion(\x7b dep, cwd, webpackAlias \x7d)`,
the version resolver of spec section 4.1. An absolute specifier skips the
alias table and takes the nearest ancestor manifest; an alias to an
absolute path substitutes it (keeping the sub-path remainder); an alias
to another specifier restarts resolution (bounded by `fuel`, since the
externally supplied table could loop); otherwise the package root is
looked up through the install tree starting at `cwd`. Returns
`none` where the source throws its `[MFSU] ... not found` error. -/
def getDepVersion (fs : FS) (table : List (String × String)) :
    Nat → FsPath → String → Option (String × FsPath)
  | 0, _, _ => none
  | f + 1, cwd, dep =>
    if strStarts dep "/" then
      (findUp fs (toPath dep)).map (fun v => (v, toPath dep))
    else
      match aliasMatch table dep with
      | some (val, rem) =>
        if strStarts val "/" then
          (findUp fs (toPath (val ++ rem))).map (fun v => (v, toPath (val ++ rem)))
        else
          getDepVersion fs table f cwd (val ++ rem)
      | none =>
        (findPkgUp fs (toPath (splitPkg dep).1) cwd).map
          (fun p => (p.1, p.2 ++ toPath (splitPkg dep).2))

/-- All ancestors of a reversed directory path, deepest first, ending
with the root. -/
def ancestorsAux : List String → List FsPath
  | [] => [[]]
  | s :: rest => (s :: rest).reverse :: ancestorsAux rest

/-- All ancestor directories of `d` (including `d` itself and the root),
deepest first. -/
def ancestors (d : FsPath) : List FsPath := ancestorsAux d.reverse

/-! ## Helper lemmas -/

/-- In a snapshot with no duplicate specifiers, looking up the key of a
member entry returns its version. -/
theorem lookupDep_mem (m : Deps) (h : (m.map Prod.fst).Nodup) {p : String × String}
    (hp : p ∈ m) : lookupDep m p.1 = some p.2 := by
  induction m with
  | nil => cases hp
  | cons q t ih =>
    rw [List.map_cons, List.nodup_cons] at h
    rcases List.mem_cons.mp hp with rfl | hmem
    · simp [lookupDep]
    · have hne : (q.1 == p.1) = false := by
        rw [beq_eq_false_iff_ne]
        intro heq
        exact h.1 (heq ▸ List.mem_map.mpr ⟨p, hmem, rfl⟩)
      rw [lookupDep, List.find?_cons_of_neg _ (by simp [hne])]
      exact ih h.2 hmem

theorem lookupDep_eq_some (m : Deps) {k v : String} (h : lookupDep m k = some v) :
    ∃ r, m.find? (fun r => r.1 == k) = some r ∧ r.1 = k ∧ r.2 = v := by
  rw [lookupDep] at h
  cases hf : m.find? (fun r => r.1 == k) with
  | none => rw [hf] at h; cases h
  | some r =>
    rw [hf] at h
    refine ⟨r, rfl, ?_, by simpa using h⟩
    simpa using List.find?_some hf

/-- The snapshot comparison is symmetric in its reading: two snapshots
match exactly when every key resolves to the same version on both sides
(no-duplicate-keys assumption, as snapshots are mappings). -/
theorem depsMatch_true_iff (a b : Deps) (ha : (a.map Prod.fst).Nodup)
    (hb : (b.map Prod.fst).Nodup) :
    depsMatch a b = true ↔ ∀ k, lookupDep a k = lookupDep b k := by
  rw [depsMatch, Bool.and_eq_true, List.all_eq_true, List.all_eq_true]
  constructor
  · rintro ⟨hab, hba⟩ k
    cases ho : lookupDep a k with
    | some v =>
      obtain ⟨r, hf, hrk, hrv⟩ := lookupDep_eq_some a ho
      have hr := hab r (List.mem_of_find?_eq_some hf)
      simp only [beq_iff_eq] at hr
      rw [← hrk, hr, hrv]
    | none =>
      cases hn : lookupDep b k with
      | none => rfl
      | some w =>
        obtain ⟨r, hf, hrk, hrv⟩ := lookupDep_eq_some b hn
        have hr := hba r (List.mem_of_find?_eq_some hf)
        simp only [beq_iff_eq] at hr
        rw [hrk] at hr
        rw [hr] at ho
        cases ho
  · intro h
    refine ⟨fun r hr => ?_, fun r hr => ?_⟩
    · simp only [beq_iff_eq]
      rw [← h r.1]
      exact lookupDep_mem a ha hr
    · simp only [beq_iff_eq]
      rw [h r.1]
      exact lookupDep_mem b hb hr

/-! ## Claims -/

/-- Claim C1: for every `buildDeps` call without the force flag, the
external dependency build is invoked if and only if `shouldBuild` is
true; and `shouldBuild` (modelled from the spec, since `DepInfo.ts` is
not in this source tree) is false exactly when every specifier resolves
to the same version in the persisted snapshot and in the new resolution
— same key set and same versions — so the identical case short-circuits
without invoking the build. -/
theorem c1_build_invoked_iff_shouldBuild :
    (∀ (api : ApiConfig) (mode : TMode) (oldDeps newDeps : Deps)
      (buildErr statsHasErrors : Bool) (tmpDir : String),
      (buildDeps api mode false oldDeps newDeps buildErr statsHasErrors tmpDir).buildInvoked =
        shouldBuild oldDeps newDeps)
    ∧ (∀ oldDeps newDeps : Deps,
      (oldDeps.map Prod.fst).Nodup → (newDeps.map Prod.fst).Nodup →
      (shouldBuild oldDeps newDeps = false ↔
        ∀ k, lookupDep oldDeps k = lookupDep newDeps k)) := by
  constructor
  · intro api mode oldDeps newDeps be he td
    simp [buildDeps]
  · intro oldDeps newDeps h₁ h₂
    rw [shouldBuild, Bool.not_eq_false']
    exact depsMatch_true_iff oldDeps newDeps h₁ h₂

/-- Witness for C1 at concrete inputs: with an unchanged snapshot the
build is not invoked, and `shouldBuild` on identical snapshots is
false. -/
theorem c1_witness :
    (buildDeps ⟨"/proj", "/proj/tmp", none, none, none, true⟩ TMode.development false
        [("lodash", "4.17.0"), ("react", "17.0.0")]
        [("lodash", "4.17.0"), ("react", "17.0.0")] false false "/tmp/.mfsu").buildInvoked =
      shouldBuild [("lodash", "4.17.0"), ("react", "17.0.0")]
        [("lodash", "4.17.0"), ("react", "17.0.0")]
    ∧ shouldBuild [("lodash", "4.17.0"), ("react", "17.0.0")]
        [("lodash", "4.17.0"), ("react", "17.0.0")] = false :=
  ⟨c1_build_invoked_iff_shouldBuild.1 ⟨"/proj", "/proj/tmp", none, none, none, true⟩
      TMode.development _ _ false false "/tmp/.mfsu",
    (c1_build_invoked_iff_shouldBuild.2 _ _ (by decide) (by decide)).mpr (fun _ => rfl)⟩

/-- Claim C2: the persisted snapshot is written if and only if an invoked
build completes with no error and no error-bearing stats; a completion
with an error or with failing stats leaves the cache unwritten and the
snapshot unchanged. -/
theorem c2_cache_written_iff_success
    (api : ApiConfig) (mode : TMode) (force : Bool) (oldDeps newDeps : Deps)
    (buildErr statsHasErrors : Bool) (tmpDir : String) :
    ((buildDeps api mode force oldDeps newDeps buildErr statsHasErrors tmpDir).cacheWritten =
      ((buildDeps api mode force oldDeps newDeps buildErr statsHasErrors tmpDir).buildInvoked
        && !buildErr && !statsHasErrors))
    ∧ ((buildErr || statsHasErrors) = true →
      (buildDeps api mode force oldDeps newDeps buildErr statsHasErrors tmpDir).cacheWritten = false
      ∧ (buildDeps api mode force oldDeps newDeps buildErr statsHasErrors tmpDir).snapshotAfter =
          oldDeps) := by
  constructor
  · rfl
  · intro h
    cases buildErr <;> cases statsHasErrors <;> simp_all [buildDeps]

/-- Witness for C2 at a concrete failed build: error reported, cache not
written, snapshot untouched. -/
theorem c2_witness :
    (true || false) = true
    ∧ (buildDeps ⟨"/proj", "/proj/tmp", none, none, none, true⟩ TMode.development false
        [] [("axios", "0.21.0")] true false "/tmp/.mfsu").cacheWritten = false
    ∧ (buildDeps ⟨"/proj", "/proj/tmp", none, none, none, true⟩ TMode.development false
        [] [("axios", "0.21.0")] true false "/tmp/.mfsu").snapshotAfter = [] :=
  ⟨by decide,
    (c2_cache_written_iff_success ⟨"/proj", "/proj/tmp", none, none, none, true⟩
      TMode.development false [] [("axios", "0.21.0")] true false "/tmp/.mfsu").2 (by decide)⟩

/-- Counterexample to claim C4 as stated: in production mode the copy to
the dist directory happens on a `buildDeps` call in which no build was
invoked at all (unchanged snapshot, no force), so it is not guarded by a
successful build. -/
theorem c4_counterexample :
    (buildDeps ⟨"/proj", "/proj/tmp", none, none, none, true⟩ TMode.production false
        [("react", "17.0.0")] [("react", "17.0.0")] false false
        "/proj/.mfsu-production").buildInvoked = false
    ∧ (buildDeps ⟨"/proj", "/proj/tmp", none, none, none, true⟩ TMode.production false
        [("react", "17.0.0")] [("react", "17.0.0")] false false
        "/proj/.mfsu-production").cacheWritten = false
    ∧ (buildDeps ⟨"/proj", "/proj/tmp", none, none, none, true⟩ TMode.production false
        [("react", "17.0.0")] [("react", "17.0.0")] false false
        "/proj/.mfsu-production").copiedToDist =
        some ("/proj/.mfsu-production", "/proj/./dist") := by
  refine ⟨?_, ?_, ?_⟩ <;> rfl

/-- Claim C4 as amended: in production mode, every `buildDeps` call — with
or without an invoked or successful build — copies the artifact from the
build output directory into `join cwd (outputPath or "./dist")`,
overwriting any prior copy there; in development mode no copy happens. -/
theorem c4_production_copy_amended
    (api : ApiConfig) (mode : TMode) (force : Bool) (oldDeps newDeps : Deps)
    (buildErr statsHasErrors : Bool) (tmpDir : String) :
    (buildDeps api mode force oldDeps newDeps buildErr statsHasErrors tmpDir).copiedToDist =
      if mode = TMode.production then
        some (tmpDir, join api.cwd (distOutput api.outputPath))
      else none := by
  cases mode <;> simp [buildDeps]

/-- Counterexample to claim C5 as stated: the `mfsu build` subcommand
resolves normally even when the build completes with an error (the error
is swallowed by the `onBuildComplete` callback), so build failure does
not produce a non-zero exit. -/
theorem c5_counterexample :
    (mfsuCommand ⟨"/proj", "/proj/tmp", none, none, none, true⟩ TMode.development
        "build" true [] [("lodash", "4.17.0")] true false "/tmp/.mfsu").isOk = true := by
  rfl

/-- Claim C5 as amended: the mfsu command throws on an unsupported
subcommand; the `build` subcommand always resolves (a build failure is
only reported through the completion callback, never as a non-zero
exit); and the force flag invokes the build even when `shouldBuild` is
false. -/
theorem c5_cli_amended (api : ApiConfig) (mode : TMode) :
    (∀ (sub : String) (force : Bool) (oldDeps newDeps : Deps)
      (buildErr statsHasErrors : Bool) (tmpDir : String), sub ≠ "build" →
      mfsuCommand api mode sub force oldDeps newDeps buildErr statsHasErrors tmpDir =
        .error ("[MFSU] Unsupported subcommand " ++ sub ++ " for mfsu."))
    ∧ (∀ (force : Bool) (oldDeps newDeps : Deps)
      (buildErr statsHasErrors : Bool) (tmpDir : String),
      mfsuCommand api mode "build" force oldDeps newDeps buildErr statsHasErrors tmpDir =
        .ok (buildDeps api mode force oldDeps newDeps buildErr statsHasErrors tmpDir))
    ∧ (∀ (oldDeps newDeps : Deps) (buildErr statsHasErrors : Bool) (tmpDir : String),
      (buildDeps api mode true oldDeps newDeps buildErr statsHasErrors tmpDir).buildInvoked =
        true) := by
  refine ⟨?_, ?_, ?_⟩
  · intro sub force oldDeps newDeps be he td h
    rw [mfsuCommand, if_neg]
    simp [h]
  · intro force oldDeps newDeps be he td
    rfl
  · intro oldDeps newDeps be he td
    simp [buildDeps]

/-- Witness for C5 (amended) at concrete inputs: an unsupported
subcommand throws, and the force flag invokes the build on an unchanged
snapshot (where `shouldBuild` is false). -/
theorem c5_witness :
    mfsuCommand ⟨"/proj", "/proj/tmp", none, none, none, true⟩ TMode.development
        "serve" false [] [] false false "/tmp/.mfsu" =
      .error ("[MFSU] Unsupported subcommand " ++ "serve" ++ " for mfsu.")
    ∧ (buildDeps ⟨"/proj", "/proj/tmp", none, none, none, true⟩ TMode.development true
        [("react", "17.0.0")] [("react", "17.0.0")] false false "/tmp/.mfsu").buildInvoked =
      true
    ∧ shouldBuild [("react", "17.0.0")] [("react", "17.0.0")] = false :=
  ⟨(c5_cli_amended ⟨"/proj", "/proj/tmp", none, none, none, true⟩ TMode.development).1
      "serve" false [] [] false false "/tmp/.mfsu" (by decide),
    (c5_cli_amended ⟨"/proj", "/proj/tmp", none, none, none, true⟩ TMode.development).2.2
      [("react", "17.0.0")] [("react", "17.0.0")] false false "/tmp/.mfsu",
    by rfl⟩

/-- Claim C9: the cache/build-output location per mode. A configured
(non-empty) output path is joined with the project cwd in both modes; by
default development uses `absTmpPath/.cache/.mfsu` and production the
per-mode directory `./.mfsu-production` under the cwd. -/
theorem c9_mfsu_path (api : ApiConfig) :
    (∀ p : String, p ≠ "" → api.devOutput = some p →
      getMfsuPath api TMode.development = join api.cwd p)
    ∧ (∀ p : String, p ≠ "" → api.prodOutput = some p →
      getMfsuPath api TMode.production = join api.cwd p)
    ∧ (api.devOutput = none →
      getMfsuPath api TMode.development = join (join api.absTmpPath ".cache") ".mfsu")
    ∧ (api.prodOutput = none →
      getMfsuPath api TMode.production = join api.cwd "./.mfsu-production") := by
  refine ⟨?_, ?_, ?_, ?_⟩ <;> intros <;> simp_all [getMfsuPath]

/-- Witness for C9 at concrete inputs. -/
theorem c9_witness :
    getMfsuPath ⟨"/proj", "/proj/tmp", some "x/.mfsu", some "y/.mfsu", none, true⟩
        TMode.development = join "/proj" "x/.mfsu"
    ∧ getMfsuPath ⟨"/proj", "/proj/tmp", some "x/.mfsu", some "y/.mfsu", none, true⟩
        TMode.production = join "/proj" "y/.mfsu"
    ∧ getMfsuPath ⟨"/proj", "/proj/tmp", none, none, none, true⟩ TMode.development =
        join (join "/proj/tmp" ".cache") ".mfsu"
    ∧ getMfsuPath ⟨"/proj", "/proj/tmp", none, none, none, true⟩ TMode.production =
        join "/proj" "./.mfsu-production" :=
  ⟨(c9_mfsu_path _).1 "x/.mfsu" (by decide) rfl,
    (c9_mfsu_path _).2.1 "y/.mfsu" (by decide) rfl,
    (c9_mfsu_path _).2.2.1 rfl,
    (c9_mfsu_path _).2.2.2 rfl⟩

/-- Claim C10: the request interceptor resolves every request against the
development-mode artifact directory, regardless of the process mode: its
result is independent of the mode, and whenever it serves a file the
served bytes are read from under `getMfsuPath api development`. -/
theorem c10_dev_path_interceptor (api : ApiConfig) (publicPath : String)
    (existing : List String) (readFile mimeOf : String → String) (req : Req) :
    (∀ m₁ m₂ : TMode,
      mfsuMiddleware api publicPath existing readFile mimeOf m₁ req =
        mfsuMiddleware api publicPath existing readFile mimeOf m₂ req)
    ∧ (∀ (mode : TMode) (ct : String) (im : Bool) (content : String),
      mfsuMiddleware api publicPath existing readFile mimeOf mode req =
        MwResult.served ct im content →
      existing.contains
          (join (getMfsuPath api TMode.development) (stripPublic publicPath req.path)) = true
      ∧ content =
          readFile (join (getMfsuPath api TMode.development) (stripPublic publicPath req.path))) := by
  constructor
  · intro m₁ m₂
    rfl
  · intro mode ct im content h
    rw [mfsuMiddleware] at h
    by_cases hc : (!api.mfsuEnabled || req.path == "/" ||
        !(existing.contains
          (join (getMfsuPath api TMode.development) (stripPublic publicPath req.path)))) = true
    · rw [if_pos hc] at h
      cases h
    · rw [if_neg hc] at h
      simp only [Bool.or_eq_true, Bool.not_eq_true'] at hc
      push_neg at hc
      refine ⟨?_, ?_⟩
      · cases hcon : existing.contains
            (join (getMfsuPath api TMode.development) (stripPublic publicPath req.path)) with
        | true => rfl
        | false => exact absurd hcon hc.2
      · cases h
        rfl

/-- Witness for C10 at a concrete request: the interceptor, running in
production mode, serves a file that exists under the development
directory. -/
theorem c10_witness :
    ["/proj/tmp/.cache/.mfsu/vendors.js", "/proj/tmp/.cache/.mfsu/remoteEntry.js"].contains
        (join (getMfsuPath ⟨"/proj", "/proj/tmp", none, none, none, true⟩ TMode.development)
          (stripPublic "/" "/vendors.js")) = true
    ∧ "BYTES" =
        (fun _ => "BYTES")
          (join (getMfsuPath ⟨"/proj", "/proj/tmp", none, none, none, true⟩ TMode.development)
            (stripPublic "/" "/vendors.js")) :=
  (c10_dev_path_interceptor ⟨"/proj", "/proj/tmp", none, none, none, true⟩ "/" ["/proj/tmp/.cache/.mfsu/vendors.js", "/proj/tmp/.cache/.mfsu/remoteEntry.js"]
      (fun _ => "BYTES") (fun e => "mime" ++ e) ⟨"/vendors.js", "/vendors.js"⟩).2
    TMode.production ("mime" ++ extname "/vendors.js") true "BYTES" (by rfl)

/-- Claim C3: the request interceptor passes through unmodified when the
feature is disabled or the resolved path does not exist under the
artifact directory; when the request names an existing artifact file (a
request for the root path `/` names the directory itself, not a file,
and always passes through), the file bytes are served with a content
type derived from the extension, and the immutable max-age cache-control
header is set exactly when the URL does not match `remoteEntry.js`. -/
theorem c3_interceptor (api : ApiConfig) (publicPath : String) (existing : List String)
    (readFile mimeOf : String → String) (mode : TMode) (req : Req) :
    (api.mfsuEnabled = false ∨
        existing.contains
          (join (getMfsuPath api TMode.development) (stripPublic publicPath req.path)) = false →
      mfsuMiddleware api publicPath existing readFile mimeOf mode req = MwResult.next)
    ∧ (api.mfsuEnabled = true → req.path ≠ "/" →
      existing.contains
          (join (getMfsuPath api TMode.development) (stripPublic publicPath req.path)) = true →
      mfsuMiddleware api publicPath existing readFile mimeOf mode req =
        MwResult.served (mimeOf (extname req.path)) (!remoteEntryTest req.url)
          (readFile (join (getMfsuPath api TMode.development)
            (stripPublic publicPath req.path)))) := by
  constructor
  · rintro (h | h)
    · rw [mfsuMiddleware, if_pos]
      simp only [Bool.or_eq_true, Bool.not_eq_true']
      exact Or.inl (Or.inl h)
    · rw [mfsuMiddleware, if_pos]
      simp only [Bool.or_eq_true, Bool.not_eq_true']
      exact Or.inr h
  · intro h₁ h₂ h₃
    have h₂' : (req.path == "/") = false := beq_eq_false_iff_ne.mpr h₂
    rw [mfsuMiddleware, if_neg]
    simp only [Bool.or_eq_true, Bool.not_eq_true']
    rintro ((hc | hc) | hc)
    · rw [h₁] at hc; cases hc
    · rw [h₂'] at hc; cases hc
    · rw [h₃] at hc; cases hc

/-- Witness for C3 at concrete requests: a missing path passes through; an
existing artifact file is served with its mime type and the immutable
header; the remote entry file is served without the immutable header. -/
theorem c3_witness :
    mfsuMiddleware ⟨"/proj", "/proj/tmp", none, none, none, true⟩ "/" ["/proj/tmp/.cache/.mfsu/vendors.js", "/proj/tmp/.cache/.mfsu/remoteEntry.js"]
        (fun _ => "BYTES") (fun e => "mime" ++ e) TMode.development
        ⟨"/nope.js", "/nope.js"⟩ = MwResult.next
    ∧ mfsuMiddleware ⟨"/proj", "/proj/tmp", none, none, none, true⟩ "/" ["/proj/tmp/.cache/.mfsu/vendors.js", "/proj/tmp/.cache/.mfsu/remoteEntry.js"]
        (fun _ => "BYTES") (fun e => "mime" ++ e) TMode.development
        ⟨"/vendors.js", "/vendors.js"⟩ =
      MwResult.served "mime.js" true "BYTES"
    ∧ mfsuMiddleware ⟨"/proj", "/proj/tmp", none, none, none, true⟩ "/" ["/proj/tmp/.cache/.mfsu/vendors.js", "/proj/tmp/.cache/.mfsu/remoteEntry.js"]
        (fun _ => "BYTES") (fun e => "mime" ++ e) TMode.development
        ⟨"/remoteEntry.js", "/remoteEntry.js"⟩ =
      MwResult.served "mime.js" false "BYTES" := by
  refine ⟨?_, ?_, ?_⟩
  · exact (c3_interceptor ⟨"/proj", "/proj/tmp", none, none, none, true⟩ "/" ["/proj/tmp/.cache/.mfsu/vendors.js", "/proj/tmp/.cache/.mfsu/remoteEntry.js"]
      (fun _ => "BYTES") (fun e => "mime" ++ e) TMode.development
      ⟨"/nope.js", "/nope.js"⟩).1 (Or.inr (by rfl))
  · have h := (c3_interceptor ⟨"/proj", "/proj/tmp", none, none, none, true⟩ "/" ["/proj/tmp/.cache/.mfsu/vendors.js", "/proj/tmp/.cache/.mfsu/remoteEntry.js"]
      (fun _ => "BYTES") (fun e => "mime" ++ e) TMode.development
      ⟨"/vendors.js", "/vendors.js"⟩).2 rfl (by decide) (by rfl)
    exact h.trans (by decide)
  · have h := (c3_interceptor ⟨"/proj", "/proj/tmp", none, none, none, true⟩ "/" ["/proj/tmp/.cache/.mfsu/vendors.js", "/proj/tmp/.cache/.mfsu/remoteEntry.js"]
      (fun _ => "BYTES") (fun e => "mime" ++ e) TMode.development
      ⟨"/remoteEntry.js", "/remoteEntry.js"⟩).2 rfl (by decide) (by rfl)
    exact h.trans (by decide)

/-- Claim C6: invalid user configuration is fatal at startup with a
descriptive message: a configured (truthy) per-mode mfsu output path not
matching `/\.mfsu/` fails the `checkConfig` assertion, and a configured
(truthy) externals value whose JS typeof is not object fails the
`modifyBundleConfig` assertion for the csr bundler config. -/
theorem c6_config_errors :
    (∀ o : String, o ≠ "" → strContains o ".mfsu" = false →
      checkConfig (some ⟨some ⟨some o⟩, none⟩) =
        .error "[MFSU] mfsu.development.output must match /\\.mfsu/.")
    ∧ (∀ o : String, o ≠ "" → strContains o ".mfsu" = false →
      checkConfig (some ⟨none, some ⟨some o⟩⟩) =
        .error "[MFSU] mfsu.production.output must match /\\.mfsu/.")
    ∧ (∀ e : JsValue, jsTruthy e = true → jsTypeof e ≠ "object" →
      modifyBundleConfigCheck BundlerConfigType.csr e =
        .error ("[MFSU] Unsupported externals config format, only support object, but got "
          ++ jsDisplay e)) := by
  refine ⟨?_, ?_, ?_⟩
  · intro o h₁ h₂
    simp [checkConfig, checkOutput, h₁, h₂, Bind.bind, Except.bind]
  · intro o h₁ h₂
    simp [checkConfig, checkOutput, h₁, h₂, Bind.bind, Except.bind]
  · intro e h₁ h₂
    simp [modifyBundleConfigCheck, h₁, h₂]

/-- Witness for C6 at concrete inputs: an output path without `.mfsu` and
a string-valued externals configuration both abort. -/
theorem c6_witness :
    checkConfig (some ⟨some ⟨some "cache-dir"⟩, none⟩) =
      .error "[MFSU] mfsu.development.output must match /\\.mfsu/."
    ∧ checkConfig (some ⟨none, some ⟨some "cache-dir"⟩⟩) =
      .error "[MFSU] mfsu.production.output must match /\\.mfsu/."
    ∧ modifyBundleConfigCheck BundlerConfigType.csr (JsValue.strv "lodash") =
      .error ("[MFSU] Unsupported externals config format, only support object, but got "
        ++ jsDisplay (JsValue.strv "lodash")) :=
  ⟨c6_config_errors.1 "cache-dir" (by decide) (by rfl),
    c6_config_errors.2.1 "cache-dir" (by decide) (by rfl),
    c6_config_errors.2.2 (JsValue.strv "lodash") (by rfl) (by decide)⟩

/-! ## Resolver lemmas -/

theorem listStarts_append (p s t : List Char) (h : listStarts p s = true) :
    listStarts p (s ++ t) = true := by
  induction p generalizing s with
  | nil => rfl
  | cons c cs ih =>
    cases s with
    | nil => cases h
    | cons a as =>
      simp only [List.cons_append, listStarts, Bool.and_eq_true] at h ⊢
      exact ⟨h.1, ih as h.2⟩

/-- A string with an absolute head keeps it after appending a sub-path. -/
theorem strStarts_append (a b p : String) (h : strStarts a p = true) :
    strStarts (a ++ b) p = true := by
  rw [strStarts, String.data_append]
  exact listStarts_append _ _ _ h

/-- Unfolding of the resolver on an absolute specifier. -/
theorem getDepVersion_abs (fs : FS) (table : List (String × String)) (f : Nat)
    (cwd : FsPath) (dep : String) (h : strStarts dep "/" = true) :
    getDepVersion fs table (f + 1) cwd dep =
      (findUp fs (toPath dep)).map (fun v => (v, toPath dep)) := by
  simp only [getDepVersion]
  rw [if_pos h]

/-- Unfolding of the resolver on an aliased specifier. -/
theorem getDepVersion_alias_step (fs : FS) (table : List (String × String)) (f : Nat)
    (cwd : FsPath) (dep val rem : String)
    (habs : strStarts dep "/" = false)
    (hm : aliasMatch table dep = some (val, rem)) :
    getDepVersion fs table (f + 1) cwd dep =
      if strStarts val "/" then
        (findUp fs (toPath (val ++ rem))).map (fun v => (v, toPath (val ++ rem)))
      else getDepVersion fs table f cwd (val ++ rem) := by
  simp only [getDepVersion]
  rw [if_neg (by simp [habs]), hm]

/-- Unfolding of the resolver on a plain, unaliased specifier. -/
theorem getDepVersion_plain_step (fs : FS) (table : List (String × String)) (f : Nat)
    (cwd : FsPath) (dep : String)
    (habs : strStarts dep "/" = false)
    (hm : aliasMatch table dep = none) :
    getDepVersion fs table (f + 1) cwd dep =
      (findPkgUp fs (toPath (splitPkg dep).1) cwd).map
        (fun p => (p.1, p.2 ++ toPath (splitPkg dep).2)) := by
  simp only [getDepVersion]
  rw [if_neg (by simp [habs]), hm]

theorem aliasMatch_nil (dep : String) : aliasMatch [] dep = none := rfl

theorem findUpAux_none_iff (fs : FS) (r : List String) :
    findUpAux fs r = none ↔ ∀ p ∈ ancestorsAux r, fs.manifestAt p = none := by
  induction r with
  | nil => simp [findUpAux, ancestorsAux]
  | cons s rest ih =>
    cases h : fs.manifestAt (rest.reverse ++ [s]) with
    | some v => simp [findUpAux, ancestorsAux, h]
    | none => simp [findUpAux, ancestorsAux, h, ih]

theorem findPkgUpAux_none_iff (fs : FS) (pkg : FsPath) (r : List String) :
    findPkgUpAux fs pkg r = none ↔
      ∀ p ∈ ancestorsAux r, fs.manifestAt (p ++ "node_modules" :: pkg) = none := by
  induction r with
  | nil => simp [findPkgUpAux, ancestorsAux]
  | cons s rest ih =>
    cases h : fs.manifestAt (rest.reverse ++ s :: "node_modules" :: pkg) with
    | some v => simp [findPkgUpAux, ancestorsAux, h]
    | none => simp [findPkgUpAux, ancestorsAux, h, ih]

/-- The install-tree lookup ascends: when the base directory has no local
entry for the package, the lookup from it equals the lookup from its
parent directory. -/
theorem findPkgUp_ascend (fs : FS) (pkg : FsPath) (d : FsPath) (hd : d ≠ [])
    (h : fs.manifestAt (d ++ "node_modules" :: pkg) = none) :
    findPkgUp fs pkg d = findPkgUp fs pkg d.dropLast := by
  rw [findPkgUp, findPkgUp]
  cases hr : d.reverse with
  | nil => exact absurd (by simpa using congrArg List.reverse hr) hd
  | cons s rest =>
    have hrev : (s :: rest).reverse = d := by
      rw [← hr, List.reverse_reverse]
    have hrest : rest = d.dropLast.reverse := by
      have ht := List.tail_reverse d
      rw [hr] at ht
      simpa using ht
    simp only [findPkgUpAux]
    rw [hrev, h, hrest]

/-- Claim C7: resolving through an alias chain of length at most two gives
the same result as resolving the ultimate target of the alias directly
(with an empty alias table), sub-path remainders included: one hop to an
absolute path; one hop to another specifier (whose resolution restarts,
and, when the target is unaliased, equals direct resolution); and two
hops ending at an absolute path. -/
theorem c7_alias_version (fs : FS) (table : List (String × String)) (cwd : FsPath) :
    (∀ (dep val rem : String) (f : Nat),
      strStarts dep "/" = false →
      aliasMatch table dep = some (val, rem) →
      strStarts val "/" = true →
      getDepVersion fs table (f + 1) cwd dep = getDepVersion fs [] 1 cwd (val ++ rem))
    ∧ (∀ (dep val rem : String) (f : Nat),
      strStarts dep "/" = false →
      aliasMatch table dep = some (val, rem) →
      strStarts val "/" = false →
      getDepVersion fs table (f + 1) cwd dep = getDepVersion fs table f cwd (val ++ rem))
    ∧ (∀ (dep val rem : String) (f : Nat),
      strStarts dep "/" = false →
      aliasMatch table dep = some (val, rem) →
      strStarts val "/" = false →
      strStarts (val ++ rem) "/" = false →
      aliasMatch table (val ++ rem) = none →
      getDepVersion fs table (f + 2) cwd dep = getDepVersion fs [] 1 cwd (val ++ rem))
    ∧ (∀ (dep val₁ rem₁ val₂ rem₂ : String) (f : Nat),
      strStarts dep "/" = false →
      aliasMatch table dep = some (val₁, rem₁) →
      strStarts val₁ "/" = false →
      strStarts (val₁ ++ rem₁) "/" = false →
      aliasMatch table (val₁ ++ rem₁) = some (val₂, rem₂) →
      strStarts val₂ "/" = true →
      getDepVersion fs table (f + 2) cwd dep = getDepVersion fs [] 1 cwd (val₂ ++ rem₂)) := by
  have habs1 : ∀ val rem : String, strStarts val "/" = true →
      getDepVersion fs [] 1 cwd (val ++ rem) =
        (findUp fs (toPath (val ++ rem))).map (fun v => (v, toPath (val ++ rem))) :=
    fun val rem hv =>
      getDepVersion_abs fs [] 0 cwd (val ++ rem) (strStarts_append val rem "/" hv)
  refine ⟨?_, ?_, ?_, ?_⟩
  · intro dep val rem f habs hm hv
    rw [getDepVersion_alias_step fs table f cwd dep val rem habs hm, if_pos hv,
      habs1 val rem hv]
  · intro dep val rem f habs hm hv
    rw [getDepVersion_alias_step fs table f cwd dep val rem habs hm, if_neg (by simp [hv])]
  · intro dep val rem f habs hm hv habs2 hm2
    show getDepVersion fs table (f + 1 + 1) cwd dep = getDepVersion fs [] 1 cwd (val ++ rem)
    rw [getDepVersion_alias_step fs table (f + 1) cwd dep val rem habs hm,
      if_neg (by simp [hv]),
      getDepVersion_plain_step fs table f cwd (val ++ rem) habs2 hm2]
    have h1 : getDepVersion fs [] 1 cwd (val ++ rem) =
        (findPkgUp fs (toPath (splitPkg (val ++ rem)).1) cwd).map
          (fun p => (p.1, p.2 ++ toPath (splitPkg (val ++ rem)).2)) :=
      getDepVersion_plain_step fs [] 0 cwd (val ++ rem) habs2 (aliasMatch_nil _)
    rw [h1]
  · intro dep val₁ rem₁ val₂ rem₂ f habs hm hv habs2 hm2 hv2
    show getDepVersion fs table (f + 1 + 1) cwd dep = getDepVersion fs [] 1 cwd (val₂ ++ rem₂)
    rw [getDepVersion_alias_step fs table (f + 1) cwd dep val₁ rem₁ habs hm,
      if_neg (by simp [hv]),
      getDepVersion_alias_step fs table f cwd (val₁ ++ rem₁) val₂ rem₂ habs2 hm2,
      if_pos hv2, habs1 val₂ rem₂ hv2]

/-- Witness for C7 at a concrete two-hop alias chain
`foo -> bar -> /pkgs/core`: resolving `foo/x` equals resolving
`/pkgs/core/x` directly, and both find the manifest of `/pkgs/core`. -/
theorem c7_witness :
    getDepVersion ⟨[(["pkgs", "core"], "7.0.0")]⟩
        [("foo", "bar"), ("bar", "/pkgs/core")] 3 [] "foo/x" =
      getDepVersion ⟨[(["pkgs", "core"], "7.0.0")]⟩ [] 1 [] ("/pkgs/core" ++ "/x")
    ∧ getDepVersion ⟨[(["pkgs", "core"], "7.0.0")]⟩ [] 1 [] ("/pkgs/core" ++ "/x") =
      some ("7.0.0", ["pkgs", "core", "x"]) :=
  ⟨(c7_alias_version ⟨[(["pkgs", "core"], "7.0.0")]⟩
      [("foo", "bar"), ("bar", "/pkgs/core")] []).2.2.2 "foo/x" "bar" "/x" "/pkgs/core" "/x" 1
      (by decide) (by decide) (by decide) (by decide) (by decide) (by decide),
    by decide⟩

/-- Claim C8: the resolver fails exactly when no package manifest can be
located. For a plain specifier it fails iff no ancestor of `cwd`, up to
the file-system root, holds the package root under its install directory;
a directory with no local entry ascends to its parent; and an alias to an
absolute path fails iff no ancestor of the target path holds a
manifest. -/
theorem c8_unresolved (fs : FS) (table : List (String × String)) :
    (∀ (cwd : FsPath) (dep : String) (f : Nat),
      strStarts dep "/" = false → aliasMatch table dep = none →
      (getDepVersion fs table (f + 1) cwd dep = none ↔
        ∀ p ∈ ancestors cwd,
          fs.manifestAt (p ++ "node_modules" :: toPath (splitPkg dep).1) = none))
    ∧ (∀ (cwd : FsPath) (pkg : FsPath), cwd ≠ [] →
      fs.manifestAt (cwd ++ "node_modules" :: pkg) = none →
      findPkgUp fs pkg cwd = findPkgUp fs pkg cwd.dropLast)
    ∧ (∀ (cwd : FsPath) (dep val rem : String) (f : Nat),
      strStarts dep "/" = false → aliasMatch table dep = some (val, rem) →
      strStarts val "/" = true →
      (getDepVersion fs table (f + 1) cwd dep = none ↔
        ∀ p ∈ ancestors (toPath (val ++ rem)), fs.manifestAt p = none)) := by
  refine ⟨?_, ?_, ?_⟩
  · intro cwd dep f habs hm
    rw [getDepVersion_plain_step fs table f cwd dep habs hm, Option.map_eq_none',
      findPkgUp]
    exact findPkgUpAux_none_iff fs (toPath (splitPkg dep).1) cwd.reverse
  · intro cwd pkg hne h
    exact findPkgUp_ascend fs pkg cwd hne h
  · intro cwd dep val rem f habs hm hv
    rw [getDepVersion_alias_step fs table f cwd dep val rem habs hm, if_pos hv,
      Option.map_eq_none', findUp]
    exact findUpAux_none_iff fs (toPath (val ++ rem)).reverse

/-- Witness for C8 at concrete inputs: an unknown package is unresolved
from a nested directory; a directory with no local install entry ascends
to its parent; and an alias to a path with no manifest above it is
unresolved. -/
theorem c8_witness :
    getDepVersion ⟨[(["node_modules", "lodash"], "4.17.0")]⟩ [] 1 ["src"] "axios" = none
    ∧ findPkgUp ⟨[(["node_modules", "lodash"], "4.17.0")]⟩ ["lodash"] ["src"] =
        findPkgUp ⟨[(["node_modules", "lodash"], "4.17.0")]⟩ ["lodash"] []
    ∧ getDepVersion ⟨[(["node_modules", "lodash"], "4.17.0")]⟩ [("foo", "/bar")] 1 [] "foo" =
        none :=
  ⟨((c8_unresolved ⟨[(["node_modules", "lodash"], "4.17.0")]⟩ []).1 ["src"] "axios" 0
      (by decide) (by rfl)).mpr (by decide),
    (c8_unresolved ⟨[(["node_modules", "lodash"], "4.17.0")]⟩ []).2.1 ["src"] ["lodash"]
      (by decide) (by decide),
    ((c8_unresolved ⟨[(["node_modules", "lodash"], "4.17.0")]⟩ [("foo", "/bar")]).2.2 []
      "foo" "/bar" "" 0 (by decide) (by decide) (by decide)).mpr (by decide)⟩

end Mfsu
